import Mathlib

/-!
Verification of the automatic pagination engine of the rspotify client
library (src/clients/pagination/stream.rs).

The engine turns a page-fetch capability into a lazy sequence of items.
We embed the two constructors `paginate` and `paginate_with_ctx` as
fuel-indexed run functions over an explicitly state-passing request
function (the explicit state `σ` models whatever effects the injected
`Fn` closure performs across calls, e.g. a network server's evolving
responses).  Machine integers: the offset is a Rust `u32` and the page
length is cast `usize → u32` before the wrapping addition, so we carry
offsets as `Nat` reduced modulo `2 ^ 32` exactly where the source casts
and adds.  Each run also records the trace of fetch calls issued
(arguments passed to the request function), which is the observable the
spec's offset/context claims quantify over.
-/

namespace RSpotify

/-- Width of the Rust `u32` offset arithmetic in
`offset += page.items.len() as u32`. -/
def U32 : Nat := 2 ^ 32

/-- Modelled from the spec: `Page<T>` lives in the model layer
(`src/model`), which is not part of the excerpt.  Per the spec's data
model it has `items` (the ordered payload of this page) and `next`
(optional marker/URL; presence/absence is the sole continuation
signal). -/
structure Page (T : Type) where
  items : List T
  next : Option String
deriving Repr, DecidableEq

/-- Modelled from the spec: `ClientResult<T>` is `Result<T, ClientError>`
with the error type opaque to the engine; we keep the error type as a
parameter `E`. -/
abbrev ClientResult (E T : Type) := Except E T

/-- Embedding of the request closure of `paginate`: called with
`(page_size, offset)`; the explicit state `σ` threads the closure's
observable effects from one call to the next. -/
def Request (σ E T : Type) := Nat → Nat → σ → σ × ClientResult E (Page T)

/-- Embedding of the request closure of `paginate_with_ctx`: called with
`(&ctx, page_size, offset)`. -/
def CtxRequest (Ctx σ E T : Type) := Ctx → Nat → Nat → σ → σ × ClientResult E (Page T)

/-- One fetch call issued by `paginate`: the arguments the request
function received. -/
structure Call where
  page_size : Nat
  offset : Nat
deriving Repr, DecidableEq

/-- One fetch call issued by `paginate_with_ctx`: the arguments the
request function received, the context value included. -/
structure CtxCall (Ctx : Type) where
  ctx : Ctx
  page_size : Nat
  offset : Nat
deriving Repr, DecidableEq

/-- Result of running a paginator for a bounded number of fetches:
the elements yielded so far, the trace of fetch calls issued, whether
the stream terminated (broke out of the loop or yielded its error)
within that budget, and the final request-closure state. -/
structure Run (E T σ C : Type) where
  output : List (ClientResult E T)
  calls : List C
  finished : Bool
  state : σ
deriving Repr

/-- The loop body of `paginate` (stream.rs lines 49-60), fuel counting
the number of fetches allowed:

    loop {
        let page = req(page_size, offset).await?;   -- on Err: yield Err, end
        offset += page.items.len() as u32;          -- u32 wrap, usize→u32 cast
        for item in page.items { yield Ok(item); }
        if page.next.is_none() { break; }
    }
-/
def paginateGo (req : Request σ E T) (page_size : Nat) :
    Nat → Nat → σ → Run E T σ Call
  | 0, _, s => ⟨[], [], false, s⟩
  | fuel + 1, offset, s =>
    let r := req page_size offset s
    match r.2 with
    | .error e => ⟨[.error e], [⟨page_size, offset⟩], true, r.1⟩
    | .ok page =>
      match page.next with
      | none => ⟨page.items.map .ok, [⟨page_size, offset⟩], true, r.1⟩
      | some _ =>
        let rest := paginateGo req page_size fuel
          ((offset + page.items.length % U32) % U32) r.1
        ⟨page.items.map .ok ++ rest.output, ⟨page_size, offset⟩ :: rest.calls,
          rest.finished, rest.state⟩

/-- `paginate(req, page_size)` (stream.rs lines 41-61): the offset
starts at 0. -/
def paginate (req : Request σ E T) (page_size : Nat) (fuel : Nat) (s : σ) :
    Run E T σ Call :=
  paginateGo req page_size fuel 0 s

/-- The loop body of `paginate_with_ctx` (stream.rs lines 27-37):
identical to `paginateGo` except that the fetch is
`req(&ctx, page_size, offset)`. -/
def paginateWithCtxGo (ctx : Ctx) (req : CtxRequest Ctx σ E T) (page_size : Nat) :
    Nat → Nat → σ → Run E T σ (CtxCall Ctx)
  | 0, _, s => ⟨[], [], false, s⟩
  | fuel + 1, offset, s =>
    let r := req ctx page_size offset s
    match r.2 with
    | .error e => ⟨[.error e], [⟨ctx, page_size, offset⟩], true, r.1⟩
    | .ok page =>
      match page.next with
      | none => ⟨page.items.map .ok, [⟨ctx, page_size, offset⟩], true, r.1⟩
      | some _ =>
        let rest := paginateWithCtxGo ctx req page_size fuel
          ((offset + page.items.length % U32) % U32) r.1
        ⟨page.items.map .ok ++ rest.output, ⟨ctx, page_size, offset⟩ :: rest.calls,
          rest.finished, rest.state⟩

/-- `paginate_with_ctx(ctx, req, page_size)` (stream.rs lines 15-39):
the offset starts at 0. -/
def paginate_with_ctx (ctx : Ctx) (req : CtxRequest Ctx σ E T) (page_size : Nat)
    (fuel : Nat) (s : σ) : Run E T σ (CtxCall Ctx) :=
  paginateWithCtxGo ctx req page_size fuel 0 s

/-- `ReturnsPages req page_size offset s ps` says that, starting the
request closure in state `s` and fetching at the offsets the engine
computes, the successive fetches return exactly the pages `ps`
(all successful). -/
def ReturnsPages (req : Request σ E T) (page_size : Nat) :
    Nat → σ → List (Page T) → Prop
  | _, _, [] => True
  | offset, s, p :: ps =>
    (req page_size offset s).2 = .ok p ∧
    ReturnsPages req page_size ((offset + p.items.length % U32) % U32)
      (req page_size offset s).1 ps

/-- Request-closure state and offset after the engine has consumed the
pages `ps` starting from `offset, s`. -/
def afterPages (req : Request σ E T) (page_size : Nat) :
    Nat → σ → List (Page T) → Nat × σ
  | offset, s, [] => (offset, s)
  | offset, s, p :: ps =>
    afterPages req page_size ((offset + p.items.length % U32) % U32)
      (req page_size offset s).1 ps

/-- The offsets at which the engine fetches the successive pages `ps`,
starting from `offset`. -/
def pageOffsets : Nat → List (Page T) → List Nat
  | _, [] => []
  | offset, p :: ps =>
    offset :: pageOffsets ((offset + p.items.length % U32) % U32) ps

/-! ### Step-level (poll) semantics

The `stream!` generator of the source suspends at each `yield`; its
compiled form is a state machine that, on each poll by the consumer,
either hands out the next buffered item of the current page or, when the
buffer is exhausted and the loop has not broken, performs the next fetch.
We embed that state machine directly: `StreamState` is the suspended
generator state and `poll` is one consumer demand (fuel bounds the
number of fetches a single poll may perform, which exceeds one only for
empty pages with `next` present). -/

/-- Answer of one poll: the next element, end of stream, or fuel ran
out (the real generator would still be fetching). -/
inductive PollOut (E T : Type) where
  | item : ClientResult E T → PollOut E T
  | stop : PollOut E T
  | fuelOut : PollOut E T
deriving Repr

/-- Suspended generator state of `paginate`: current offset, the items
of the last fetched page not yet handed to the consumer, whether the
loop has ended (no further fetch will be issued), and the request
closure's state. -/
structure StreamState (T σ : Type) where
  offset : Nat
  buffer : List T
  finished : Bool
  reqState : σ
deriving Repr

/-- Result of one poll: the answer, the successor state, and the fetch
calls issued during this poll. -/
structure PollResult (E T σ : Type) where
  out : PollOut E T
  state : StreamState T σ
  calls : List Call
deriving Repr

/-- One consumer demand on the stream produced by `paginate`.  A fetch
is performed only when the buffer of the previously fetched page is
empty and the loop has not ended. -/
def poll (req : Request σ E T) (n : Nat) :
    Nat → StreamState T σ → PollResult E T σ
  | 0, s =>
    match s.buffer with
    | b :: rest => ⟨.item (.ok b), { s with buffer := rest }, []⟩
    | [] => if s.finished then ⟨.stop, s, []⟩ else ⟨.fuelOut, s, []⟩
  | fuel + 1, s =>
    match s.buffer with
    | b :: rest => ⟨.item (.ok b), { s with buffer := rest }, []⟩
    | [] =>
      if s.finished then ⟨.stop, s, []⟩
      else
        let r := req n s.offset s.reqState
        match r.2 with
        | .error e => ⟨.item (.error e), ⟨s.offset, [], true, r.1⟩, [⟨n, s.offset⟩]⟩
        | .ok page =>
          let offset' := (s.offset + page.items.length % U32) % U32
          match page.items, page.next with
          | [], none =>
            ⟨.stop, ⟨offset', [], true, r.1⟩, [⟨n, s.offset⟩]⟩
          | [], some _ =>
            let rest := poll req n fuel ⟨offset', [], false, r.1⟩
            ⟨rest.out, rest.state, ⟨n, s.offset⟩ :: rest.calls⟩
          | b :: bs, nxt =>
            ⟨.item (.ok b), ⟨offset', bs, nxt.isNone, r.1⟩, [⟨n, s.offset⟩]⟩

/-- The state in which `paginate` hands the stream to the consumer:
offset 0, nothing buffered, loop not ended.  Constructing it involves no
call of the request function. -/
def streamInit (s : σ) : StreamState T σ := ⟨0, [], false, s⟩

/-! ### Concrete request closures used as test inputs -/

/-- A scripted request closure: its state is the list of pending
responses, served one per call. -/
def scriptReq : Request (List (ClientResult Nat (Page Nat))) Nat Nat := fun _ _ s =>
  match s with
  | [] => ([], .error 99)
  | r :: rest => (rest, r)

/-- A defective server that always answers with a zero-item page whose
`next` is present. -/
def emptyNextReq : Request Unit Nat Nat := fun _ _ s =>
  (s, .ok ⟨[], some "next"⟩)

/-- A page of `2 ^ 32` items with `next` present: its length survives
the `usize → u32` cast of the source only modulo `2 ^ 32`. -/
def bigPage : Page Nat := ⟨List.replicate U32 0, some "n"⟩

/-- Script serving the huge page, then an empty final page. -/
def bigScript : List (ClientResult Nat (Page Nat)) :=
  [.ok bigPage, .ok ⟨[], none⟩]

/-- Context-variant script for tests: ignores the context and serves
the pending responses. -/
def ctxScriptReq : CtxRequest String (List (ClientResult Nat (Page Nat))) Nat Nat :=
  fun _ ps o s => scriptReq ps o s

/-! ### Helper lemmas -/

theorem U32_pos : 0 < U32 := by norm_num [U32]

/-- Folding one u32 step into a cumulative sum modulo `U32`. -/
theorem modStep (a b c m : Nat) :
    ((a + b % m) % m + c) % m = (a + (b + c)) % m := by
  rw [Nat.mod_add_mod, Nat.add_right_comm, Nat.add_mod_mod]
  congr 1
  omega

/-- Master lemma for successful terminating runs: if the successive
fetches return the pages `ps ++ [plast]`, every page in `ps` has `next`
present and `plast` has `next` absent, then with enough fuel the loop
yields the concatenated items wrapped in `Ok`, issues one call per page
at the offsets `pageOffsets`, and terminates. -/
theorem paginateGo_returns (req : Request σ E T) (n : Nat) :
    ∀ (ps : List (Page T)) (plast : Page T) (offset : Nat) (s : σ) (fuel : Nat),
      ReturnsPages req n offset s (ps ++ [plast]) →
      (∀ p ∈ ps, p.next ≠ none) →
      plast.next = none →
      ps.length + 1 ≤ fuel →
      paginateGo req n fuel offset s =
        ⟨((ps ++ [plast]).map Page.items).flatten.map Except.ok,
          (pageOffsets offset (ps ++ [plast])).map (Call.mk n),
          true, (afterPages req n offset s (ps ++ [plast])).2⟩ := by
  intro ps
  induction ps with
  | nil =>
    intro plast offset s fuel hret hmid hlast hfuel
    obtain ⟨h1, -⟩ := hret
    cases fuel with
    | zero => exact absurd hfuel (by simp)
    | succ fuel =>
      simp [paginateGo, h1, hlast, pageOffsets, afterPages]
  | cons p ps ih =>
    intro plast offset s fuel hret hmid hlast hfuel
    obtain ⟨h1, h2⟩ := hret
    cases fuel with
    | zero => exact absurd hfuel (by simp)
    | succ fuel =>
      have hp : p.next ≠ none := hmid p (List.mem_cons_self p ps)
      cases hpn : p.next with
      | none => exact absurd hpn hp
      | some u =>
        have hmid' : ∀ x ∈ ps, x.next ≠ none := fun x hx =>
          hmid x (List.mem_cons_of_mem _ hx)
        have hfuel' : ps.length + 1 ≤ fuel := by
          simp only [List.length_cons] at hfuel; omega
        have ihx := ih plast ((offset + p.items.length % U32) % U32)
          (req n offset s).1 fuel h2 hmid' hlast hfuel'
        simp at ihx
        simp [paginateGo, h1, hpn, ihx, pageOffsets, afterPages]

/-- Master lemma for failing runs: if the fetches of the pages `ps`
succeed, all with `next` present, and the following fetch fails with
`e`, then the loop yields the items of `ps` wrapped in `Ok` followed by
exactly one `Err`, issues `ps.length + 1` calls, and terminates. -/
theorem paginateGo_error (req : Request σ E T) (n : Nat) :
    ∀ (ps : List (Page T)) (offset : Nat) (s : σ) (fuel : Nat) (e : E),
      ReturnsPages req n offset s ps →
      (∀ p ∈ ps, p.next ≠ none) →
      (req n (afterPages req n offset s ps).1 (afterPages req n offset s ps).2).2
        = .error e →
      ps.length + 1 ≤ fuel →
      (paginateGo req n fuel offset s).output
          = ((ps.map Page.items).flatten.map Except.ok) ++ [.error e] ∧
        (paginateGo req n fuel offset s).calls.length = ps.length + 1 ∧
        (paginateGo req n fuel offset s).finished = true := by
  intro ps
  induction ps with
  | nil =>
    intro offset s fuel e hret hmid herr hfuel
    simp only [afterPages] at herr
    cases fuel with
    | zero => exact absurd hfuel (by simp)
    | succ fuel => simp [paginateGo, herr]
  | cons p ps ih =>
    intro offset s fuel e hret hmid herr hfuel
    obtain ⟨h1, h2⟩ := hret
    cases fuel with
    | zero => exact absurd hfuel (by simp)
    | succ fuel =>
      have hp : p.next ≠ none := hmid p (List.mem_cons_self p ps)
      cases hpn : p.next with
      | none => exact absurd hpn hp
      | some u =>
        have hmid' : ∀ x ∈ ps, x.next ≠ none := fun x hx =>
          hmid x (List.mem_cons_of_mem _ hx)
        have hfuel' : ps.length + 1 ≤ fuel := by
          simp only [List.length_cons] at hfuel; omega
        simp only [afterPages] at herr
        have ihx := ih ((offset + p.items.length % U32) % U32)
          (req n offset s).1 fuel e h2 hmid' herr hfuel'
        simp at ihx
        simp [paginateGo, h1, hpn, ihx]

/-- Running with more fuel only extends the produced elements and the
call trace: consumption depth never changes what was already
determined. -/
theorem paginateGo_mono (req : Request σ E T) (n : Nat) :
    ∀ (fuel fuel' offset : Nat) (s : σ),
      fuel ≤ fuel' →
      ∃ out2 calls2,
        (paginateGo req n fuel' offset s).output
            = (paginateGo req n fuel offset s).output ++ out2 ∧
          (paginateGo req n fuel' offset s).calls
            = (paginateGo req n fuel offset s).calls ++ calls2 := by
  intro fuel
  induction fuel with
  | zero =>
    intro fuel' offset s _
    exact ⟨(paginateGo req n fuel' offset s).output,
      (paginateGo req n fuel' offset s).calls, by simp [paginateGo]⟩
  | succ fuel ih =>
    intro fuel' offset s hle
    cases fuel' with
    | zero => exact absurd hle (by omega)
    | succ fuel' =>
      cases h1 : (req n offset s).2 with
      | error e => exact ⟨[], [], by simp [paginateGo, h1]⟩
      | ok page =>
        cases hpn : page.next with
        | none => exact ⟨[], [], by simp [paginateGo, h1, hpn]⟩
        | some u =>
          obtain ⟨out2, calls2, ho, hc⟩ :=
            ih fuel' ((offset + page.items.length % U32) % U32)
              (req n offset s).1 (by omega)
          simp only [Nat.add_mod_mod] at ho hc
          exact ⟨out2, calls2, by simp [paginateGo, h1, hpn, ho, hc]⟩

/-- Whenever at least one fetch is allowed, the first recorded call is
at the current offset. -/
theorem paginateGo_calls_head (req : Request σ E T) (n : Nat)
    (fuel offset : Nat) (s : σ) :
    (paginateGo req n (fuel + 1) offset s).calls.head? = some ⟨n, offset⟩ := by
  cases h1 : (req n offset s).2 with
  | error e => simp [paginateGo, h1]
  | ok page =>
    cases hpn : page.next with
    | none => simp [paginateGo, h1, hpn]
    | some u => simp [paginateGo, h1, hpn]

/-- One fetch is recorded per page. -/
theorem pageOffsets_length (ps : List (Page T)) :
    ∀ offset : Nat, (pageOffsets offset ps).length = ps.length := by
  induction ps with
  | nil => intro offset; simp [pageOffsets]
  | cons p ps ih => intro offset; simp [pageOffsets, ih]

/-- Every fetch offset stays below `U32` when the start offset does. -/
theorem pageOffsets_lt (ps : List (Page T)) :
    ∀ offset : Nat, offset < U32 → ∀ x ∈ pageOffsets offset ps, x < U32 := by
  induction ps with
  | nil => intro offset _ x hx; simp [pageOffsets] at hx
  | cons p ps ih =>
    intro offset hoff x hx
    simp only [pageOffsets, List.mem_cons] at hx
    rcases hx with rfl | hx
    · exact hoff
    · exact ih _ (Nat.mod_lt _ U32_pos) x hx

/-- Closed form of the fetch offsets: starting below `U32`, the k-th
fetch happens at the start offset plus the items of the first k pages,
reduced modulo `U32`. -/
theorem pageOffsets_eq (ps : List (Page T)) :
    ∀ offset : Nat, offset < U32 →
      pageOffsets offset ps
        = (List.range ps.length).map
            (fun k => (offset + (((ps.take k).map fun p => p.items.length).sum)) % U32) := by
  induction ps with
  | nil => intro offset _; simp [pageOffsets]
  | cons p ps ih =>
    intro offset hoff
    have hlt : (offset + p.items.length % U32) % U32 < U32 :=
      Nat.mod_lt _ U32_pos
    rw [pageOffsets, ih _ hlt, List.length_cons, List.range_succ_eq_map]
    simp only [List.map_cons, List.map_map, List.cons.injEq]
    refine ⟨by simp [Nat.mod_eq_of_lt hoff], ?_⟩
    refine List.map_congr_left fun k hk => ?_
    simp only [Function.comp, List.take_succ_cons, List.map_cons, List.sum_cons]
    exact modStep offset p.items.length _ U32

/-- The context variant runs the same loop: erasing the context from
its call trace gives exactly the plain run. -/
theorem paginateWithCtxGo_strip (req : Request σ E T) (c : Ctx) (n : Nat) :
    ∀ (fuel offset : Nat) (s : σ),
      paginateWithCtxGo c (fun _ ps o st => req ps o st) n fuel offset s =
        ⟨(paginateGo req n fuel offset s).output,
          (paginateGo req n fuel offset s).calls.map
            (fun k => ⟨c, k.page_size, k.offset⟩),
          (paginateGo req n fuel offset s).finished,
          (paginateGo req n fuel offset s).state⟩ := by
  intro fuel
  induction fuel with
  | zero => intro offset s; simp [paginateGo, paginateWithCtxGo]
  | succ fuel ih =>
    intro offset s
    cases h1 : (req n offset s).2 with
    | error e => simp [paginateGo, paginateWithCtxGo, h1]
    | ok page =>
      cases hpn : page.next with
      | none => simp [paginateGo, paginateWithCtxGo, h1, hpn]
      | some u => simp [paginateGo, paginateWithCtxGo, h1, hpn, ih]

/-- Every call of the context variant carries the constructor's context
and page size. -/
theorem paginateWithCtxGo_ctx (ctx : Ctx) (req : CtxRequest Ctx σ E T) (n : Nat) :
    ∀ (fuel offset : Nat) (s : σ) (c : CtxCall Ctx),
      c ∈ (paginateWithCtxGo ctx req n fuel offset s).calls →
      c.ctx = ctx ∧ c.page_size = n := by
  intro fuel
  induction fuel with
  | zero => intro offset s c hc; simp [paginateWithCtxGo] at hc
  | succ fuel ih =>
    intro offset s c hc
    cases h1 : (req ctx n offset s).2 with
    | error e =>
      simp [paginateWithCtxGo, h1] at hc
      subst hc; exact ⟨rfl, rfl⟩
    | ok page =>
      cases hpn : page.next with
      | none =>
        simp [paginateWithCtxGo, h1, hpn] at hc
        subst hc; exact ⟨rfl, rfl⟩
      | some u =>
        simp [paginateWithCtxGo, h1, hpn] at hc
        rcases hc with rfl | hc
        · exact ⟨rfl, rfl⟩
        · exact ih _ _ c hc

/-- Against the defective always-empty-with-next server, the run from
offset 0 never finishes, yields nothing, and fetches every time at
offset 0. -/
theorem paginateGo_emptyNext (n : Nat) :
    ∀ fuel : Nat,
      paginateGo emptyNextReq n fuel 0 () =
        ⟨[], List.replicate fuel ⟨n, 0⟩, false, ()⟩ := by
  intro fuel
  induction fuel with
  | zero => simp [paginateGo]
  | succ fuel ih => simp [paginateGo, emptyNextReq, ih, List.replicate_succ]

/-- A zero-item page with `next` present makes the engine fetch again
at the unchanged offset. -/
theorem paginateGo_empty_page_step (req : Request σ E T) (n : Nat)
    (offset : Nat) (s : σ) (page : Page T) (u : String) (fuel : Nat)
    (h1 : (req n offset s).2 = .ok page)
    (hitems : page.items = [])
    (hnext : page.next = some u)
    (hoff : offset < U32) :
    (paginateGo req n (fuel + 1 + 1) offset s).calls.take 2
      = [⟨n, offset⟩, ⟨n, offset⟩] := by
  simp [paginateGo, h1, hnext, hitems, Nat.mod_eq_of_lt hoff]
  cases h2 : (req n offset (req n offset s).1).2 with
  | error e => simp [h2]
  | ok page2 =>
    cases hpn2 : page2.next with
    | none => simp [h2, hpn2]
    | some v => simp [h2, hpn2]

/-! ### The claims -/

/-- C1: for every run of `paginate` whose successive fetches return the
pages `ps ++ [plast]` — exactly the last having `next` absent — the
produced sequence is the concatenation of the page item lists in fetch
order (page-then-within-page), each item wrapped in `Ok`, and the
stream then ends. -/
theorem paginate_output_is_concat (req : Request σ E T) (n : Nat)
    (ps : List (Page T)) (plast : Page T) (s : σ) (fuel : Nat)
    (hret : ReturnsPages req n 0 s (ps ++ [plast]))
    (hmid : ∀ p ∈ ps, p.next ≠ none)
    (hlast : plast.next = none)
    (hfuel : ps.length + 1 ≤ fuel) :
    (paginate req n fuel s).output
        = ((ps ++ [plast]).map Page.items).flatten.map Except.ok ∧
      (paginate req n fuel s).finished = true := by
  rw [paginate, paginateGo_returns req n ps plast 0 s fuel hret hmid hlast hfuel]
  exact ⟨rfl, rfl⟩

/-- Witness for C1: a two-page script yields `[Ok 1, Ok 2, Ok 3]`. -/
theorem paginate_output_is_concat_witness :
    (paginate scriptReq 2 2 [.ok ⟨[1, 2], some "a"⟩, .ok ⟨[3], none⟩]).output
        = ((([⟨[1, 2], some "a"⟩] : List (Page Nat))
            ++ ([⟨[3], none⟩] : List (Page Nat))).map Page.items).flatten.map Except.ok ∧
      (paginate scriptReq 2 2 [.ok ⟨[1, 2], some "a"⟩, .ok ⟨[3], none⟩]).finished = true :=
  paginate_output_is_concat scriptReq 2 [⟨[1, 2], some "a"⟩] ⟨[3], none⟩
    [.ok ⟨[1, 2], some "a"⟩, .ok ⟨[3], none⟩] 2
    (by simp [ReturnsPages, scriptReq]) (by simp) rfl (by simp)

/-- C2 counterexample: the first fetch returns `bigPage` with `2 ^ 32`
items and `next` present, so the claim predicts the second fetch at
offset `2 ^ 32` (the sum of item counts of fetch 1); the code passes
offset 0 (`u32` wrap-around of the cast-and-add). -/
theorem paginate_offset_not_exact_sum :
    (paginate scriptReq 10 2 bigScript).calls.map Call.offset = [0, 0] ∧
      bigPage.items.length = U32 ∧ (0 : Nat) ≠ U32 := by
  have e1 : bigPage.items.length = U32 := by
    rw [bigPage]
    exact List.length_replicate U32 0
  have h := paginateGo_returns scriptReq 10 [bigPage] ⟨[], none⟩ 0 bigScript 2
    (by simp [ReturnsPages, scriptReq, bigScript]) (by simp [bigPage]) rfl (by simp)
  refine ⟨?_, e1, by norm_num [U32]⟩
  rw [paginate, h]
  simp only [Run.calls, List.cons_append, List.nil_append, pageOffsets, e1]
  simp [Nat.mod_self]

/-- C2 amended: the offset passed to the first fetch is 0, and the
offset passed to fetch k+1 equals the sum of the item counts of the
pages returned by fetches 1..k reduced modulo `2 ^ 32`. -/
theorem paginate_offsets_mod_u32 (req : Request σ E T) (n : Nat)
    (ps : List (Page T)) (plast : Page T) (s : σ) (fuel : Nat)
    (hret : ReturnsPages req n 0 s (ps ++ [plast]))
    (hmid : ∀ p ∈ ps, p.next ≠ none)
    (hlast : plast.next = none)
    (hfuel : ps.length + 1 ≤ fuel) :
    (paginate req n fuel s).calls.map Call.offset
      = (List.range (ps.length + 1)).map
          (fun k => ((((ps ++ [plast]).take k).map fun p => p.items.length).sum) % U32) := by
  rw [paginate, paginateGo_returns req n ps plast 0 s fuel hret hmid hlast hfuel]
  simp only [List.map_map]
  have hco : (Call.offset ∘ Call.mk n) = id := rfl
  rw [hco, List.map_id, pageOffsets_eq _ 0 U32_pos]
  simp

/-- Witness for the amended C2 at a concrete two-page script. -/
theorem paginate_offsets_mod_u32_witness :
    (paginate scriptReq 2 2 [.ok ⟨[1, 2], some "a"⟩, .ok ⟨[3], none⟩]).calls.map Call.offset
      = (List.range (([⟨[1, 2], some "a"⟩] : List (Page Nat)).length + 1)).map
          (fun k => (((([⟨[1, 2], some "a"⟩] : List (Page Nat))
              ++ ([⟨[3], none⟩] : List (Page Nat))).take k).map
            fun p => p.items.length).sum % U32) :=
  paginate_offsets_mod_u32 scriptReq 2 [⟨[1, 2], some "a"⟩] ⟨[3], none⟩
    [.ok ⟨[1, 2], some "a"⟩, .ok ⟨[3], none⟩] 2
    (by simp [ReturnsPages, scriptReq]) (by simp) rfl (by simp)

/-- C3: if the fetches return `ps ++ [plast]` with exactly the last
page's `next` absent, the engine issues exactly `ps.length + 1`
fetches, terminates, and no element of the output is an error. -/
theorem paginate_terminates_at_last_page (req : Request σ E T) (n : Nat)
    (ps : List (Page T)) (plast : Page T) (s : σ) (fuel : Nat)
    (hret : ReturnsPages req n 0 s (ps ++ [plast]))
    (hmid : ∀ p ∈ ps, p.next ≠ none)
    (hlast : plast.next = none)
    (hfuel : ps.length + 1 ≤ fuel) :
    (paginate req n fuel s).calls.length = ps.length + 1 ∧
      (paginate req n fuel s).finished = true ∧
      ∀ x ∈ (paginate req n fuel s).output, ∃ t, x = Except.ok t := by
  rw [paginate, paginateGo_returns req n ps plast 0 s fuel hret hmid hlast hfuel]
  refine ⟨by simp [pageOffsets_length], rfl, ?_⟩
  intro x hx
  simp only [List.mem_map] at hx
  obtain ⟨t, -, rfl⟩ := hx
  exact ⟨t, rfl⟩

/-- Witness for C3 at the degenerate single empty final page: one
fetch, the empty sequence, no error. -/
theorem paginate_terminates_at_last_page_witness :
    (paginate scriptReq 5 1 [.ok ⟨[], none⟩]).calls.length = 0 + 1 ∧
      (paginate scriptReq 5 1 [.ok ⟨[], none⟩]).finished = true ∧
      ∀ x ∈ (paginate scriptReq 5 1 [.ok ⟨[], none⟩]).output, ∃ t, x = Except.ok t :=
  paginate_terminates_at_last_page scriptReq 5 [] ⟨[], none⟩ [.ok ⟨[], none⟩] 1
    (by simp [ReturnsPages, scriptReq]) (by simp) rfl (by simp)

/-- C4: if the fetches of the pages `ps` succeed, all with `next`
present, and the following fetch fails with `e`, then the output is the
items of `ps` wrapped in `Ok` followed by exactly one `Err e` and
nothing after it, the failed page contributes no items, exactly
`ps.length + 1` fetches are issued, and the stream is exhausted. -/
theorem paginate_error_short_circuit (req : Request σ E T) (n : Nat)
    (ps : List (Page T)) (e : E) (s : σ) (fuel : Nat)
    (hret : ReturnsPages req n 0 s ps)
    (hmid : ∀ p ∈ ps, p.next ≠ none)
    (herr : (req n (afterPages req n 0 s ps).1 (afterPages req n 0 s ps).2).2
      = .error e)
    (hfuel : ps.length + 1 ≤ fuel) :
    (paginate req n fuel s).output
        = ((ps.map Page.items).flatten.map Except.ok) ++ [.error e] ∧
      (paginate req n fuel s).calls.length = ps.length + 1 ∧
      (paginate req n fuel s).finished = true :=
  paginateGo_error req n ps 0 s fuel e hret hmid herr hfuel

/-- Witness for C4: one good page, then the script is exhausted and the
fetch fails with error 99. -/
theorem paginate_error_short_circuit_witness :
    (paginate scriptReq 3 2 [.ok ⟨[1], some "a"⟩]).output
        = ((([⟨[1], some "a"⟩] : List (Page Nat)).map Page.items).flatten.map Except.ok)
            ++ [.error 99] ∧
      (paginate scriptReq 3 2 [.ok ⟨[1], some "a"⟩]).calls.length = 1 + 1 ∧
      (paginate scriptReq 3 2 [.ok ⟨[1], some "a"⟩]).finished = true :=
  paginate_error_short_circuit scriptReq 3 [⟨[1], some "a"⟩] 99 [.ok ⟨[1], some "a"⟩] 2
    (by simp [ReturnsPages, scriptReq]) (by simp)
    (by simp [afterPages, scriptReq]) (by simp)

/-- C5: the engine is demand-driven.  A poll on a state whose buffer
still holds items of the previously fetched page yields that page's
next item and issues no fetch; contrapositively, any poll that issues a
fetch found the buffer exhausted, so fetch N+1 is never issued before
all items of page N have been yielded.  (The handed-out initial state
`streamInit` has an empty buffer and is built without calling the
request function, so no fetch precedes the first poll.) -/
theorem paginate_demand_driven (req : Request σ E T) (n : Nat) :
    (∀ (fuel : Nat) (s : StreamState T σ) (h : s.buffer ≠ []),
        poll req n fuel s
          = ⟨.item (.ok (s.buffer.head h)), { s with buffer := s.buffer.tail }, []⟩) ∧
      ∀ (fuel : Nat) (s : StreamState T σ),
        (poll req n fuel s).calls ≠ [] → s.buffer = [] := by
  have hyield : ∀ (fuel : Nat) (s : StreamState T σ) (h : s.buffer ≠ []),
      poll req n fuel s
        = ⟨.item (.ok (s.buffer.head h)), { s with buffer := s.buffer.tail }, []⟩ := by
    intro fuel s h
    obtain ⟨off, buf, fin, rs⟩ := s
    cases buf with
    | nil => exact absurd rfl h
    | cons b bs => cases fuel <;> simp [poll]
  refine ⟨hyield, ?_⟩
  intro fuel s hc
  by_contra hb
  rw [hyield fuel s hb] at hc
  exact hc rfl

/-- Witness for C5: with two items still buffered, a poll yields the
first of them and performs no fetch. -/
theorem paginate_demand_driven_witness :
    poll scriptReq 3 4 ⟨7, [5, 6], false, []⟩
      = ⟨.item (.ok 5), ⟨7, [6], false, []⟩, []⟩ := by
  have h := (paginate_demand_driven scriptReq 3).1 4 ⟨7, [5, 6], false, []⟩ (by simp)
  simpa using h

/-- C6: a zero-item page with `next` present makes the engine fetch
again at the unchanged offset; consequently, against a server that
always returns such pages, the run never finishes and issues one fetch
per unit of fuel, all at offset 0, yielding nothing — for every fuel
bound, so the number of fetches is unbounded. -/
theorem paginate_no_empty_page_defense :
    (∀ (req : Request σ E T) (n offset : Nat) (s : σ) (page : Page T)
        (u : String) (fuel : Nat),
        (req n offset s).2 = .ok page → page.items = [] → page.next = some u →
        offset < U32 →
        (paginateGo req n (fuel + 1 + 1) offset s).calls.take 2
          = [⟨n, offset⟩, ⟨n, offset⟩]) ∧
      ∀ (n fuel : Nat),
        (paginate emptyNextReq n fuel ()).finished = false ∧
          (paginate emptyNextReq n fuel ()).calls = List.replicate fuel ⟨n, 0⟩ ∧
          (paginate emptyNextReq n fuel ()).output = [] := by
  constructor
  · intro req n offset s page u fuel h1 hitems hnext hoff
    exact paginateGo_empty_page_step req n offset s page u fuel h1 hitems hnext hoff
  · intro n fuel
    rw [paginate, paginateGo_emptyNext n fuel]
    exact ⟨rfl, rfl, rfl⟩

/-- Witness for C6: the defective server makes the engine fetch twice
at offset 0 within the first two fetches. -/
theorem paginate_no_empty_page_defense_witness :
    (paginateGo emptyNextReq 4 (0 + 1 + 1) 0 ()).calls.take 2 = [⟨4, 0⟩, ⟨4, 0⟩] :=
  (paginate_no_empty_page_defense).1 emptyNextReq 4 0 () ⟨[], some "next"⟩ "next" 0
    rfl rfl rfl U32_pos

/-- C7: every fetch call issued across the lifetime of one run of
`paginate_with_ctx` receives the very context value the constructor was
given, unchanged, together with the constructor's page size. -/
theorem paginate_with_ctx_threads_context (ctx : Ctx) (req : CtxRequest Ctx σ E T)
    (n fuel : Nat) (s : σ) :
    ∀ c ∈ (paginate_with_ctx ctx req n fuel s).calls,
      c.ctx = ctx ∧ c.page_size = n :=
  fun c hc => paginateWithCtxGo_ctx ctx req n fuel 0 s c hc

/-- Witness for C7: the one call of a single-page run carries the
constructor's context and page size. -/
theorem paginate_with_ctx_threads_context_witness :
    (⟨"tok", 2, 0⟩ : CtxCall String).ctx = "tok" ∧
      (⟨"tok", 2, 0⟩ : CtxCall String).page_size = 2 :=
  paginate_with_ctx_threads_context "tok" ctxScriptReq 2 1 [.ok ⟨[5], none⟩]
    ⟨"tok", 2, 0⟩
    (by
      have h : (paginate_with_ctx "tok" ctxScriptReq 2 1 [.ok ⟨[5], none⟩]).calls
          = [⟨"tok", 2, 0⟩] := rfl
      rw [h]
      exact List.mem_singleton.mpr rfl)

/-- C8: sequences are deterministic functions of their own arguments
and both start at offset 0; consuming one to any depth only extends
its own trace and cannot change the other's (`paginate` holds no state
shared between two runs: each is a pure function of `req`, `n`, `s`). -/
theorem paginate_runs_independent (req : Request σ E T) (n : Nat) (s : σ) :
    (∀ fuel fuel' : Nat, fuel ≤ fuel' →
        ∃ out2 calls2,
          (paginate req n fuel' s).output
              = (paginate req n fuel s).output ++ out2 ∧
            (paginate req n fuel' s).calls
              = (paginate req n fuel s).calls ++ calls2) ∧
      ∀ fuel : Nat, (paginate req n (fuel + 1) s).calls.head? = some ⟨n, 0⟩ := by
  constructor
  · intro fuel fuel' h
    exact paginateGo_mono req n fuel fuel' 0 s h
  · intro fuel
    exact paginateGo_calls_head req n fuel 0 s

/-- Witness for C8: consuming to depth 3 extends the depth-1 trace of
the same script. -/
theorem paginate_runs_independent_witness :
    ∃ out2 calls2,
      (paginate scriptReq 2 3 [.ok ⟨[1], none⟩]).output
          = (paginate scriptReq 2 1 [.ok ⟨[1], none⟩]).output ++ out2 ∧
        (paginate scriptReq 2 3 [.ok ⟨[1], none⟩]).calls
          = (paginate scriptReq 2 1 [.ok ⟨[1], none⟩]).calls ++ calls2 :=
  (paginate_runs_independent scriptReq 2 [.ok ⟨[1], none⟩]).1 1 3 (by norm_num)

/-- C9: the no-context and context variants implement one algorithm:
for every request function and any context value, the context variant
applied to the wrapped request function produces the same elements,
the same termination flag and closure state, and issues the same fetch
calls (each carrying the context). -/
theorem paginate_refines_with_ctx (req : Request σ E T) (c : Ctx)
    (n fuel : Nat) (s : σ) :
    paginate_with_ctx c (fun _ ps o st => req ps o st) n fuel s
      = ⟨(paginate req n fuel s).output,
          (paginate req n fuel s).calls.map (fun k => ⟨c, k.page_size, k.offset⟩),
          (paginate req n fuel s).finished,
          (paginate req n fuel s).state⟩ :=
  paginateWithCtxGo_strip req c n fuel 0 s

/-- C10: the offset is u32 arithmetic — each fetch's offset equals the
cumulative item count so far reduced modulo `2 ^ 32` (a page longer
than `2 ^ 32` items contributes its length mod `2 ^ 32`), and every
offset passed stays below `2 ^ 32`. -/
theorem paginate_offset_is_u32_cursor (req : Request σ E T) (n : Nat)
    (ps : List (Page T)) (plast : Page T) (s : σ) (fuel : Nat)
    (hret : ReturnsPages req n 0 s (ps ++ [plast]))
    (hmid : ∀ p ∈ ps, p.next ≠ none)
    (hlast : plast.next = none)
    (hfuel : ps.length + 1 ≤ fuel) :
    (paginate req n fuel s).calls.map Call.offset
        = (List.range (ps.length + 1)).map
            (fun k => ((((ps ++ [plast]).take k).map fun p => p.items.length).sum) % U32) ∧
      ∀ c ∈ (paginate req n fuel s).calls, c.offset < U32 := by
  rw [paginate, paginateGo_returns req n ps plast 0 s fuel hret hmid hlast hfuel]
  constructor
  · simp only [List.map_map]
    have hco : (Call.offset ∘ Call.mk n) = id := rfl
    rw [hco, List.map_id, pageOffsets_eq _ 0 U32_pos]
    simp
  · intro c hc
    simp only [Run.calls, List.mem_map] at hc
    obtain ⟨x, hx, rfl⟩ := hc
    exact pageOffsets_lt _ 0 U32_pos x hx

/-- Witness for C10 at a concrete two-page script. -/
theorem paginate_offset_is_u32_cursor_witness :
    (paginate scriptReq 2 2 [.ok ⟨[1, 2], some "a"⟩, .ok ⟨[], none⟩]).calls.map Call.offset
        = (List.range (([⟨[1, 2], some "a"⟩] : List (Page Nat)).length + 1)).map
            (fun k => (((([⟨[1, 2], some "a"⟩] : List (Page Nat))
                ++ ([⟨[], none⟩] : List (Page Nat))).take k).map
              fun p => p.items.length).sum % U32) ∧
      ∀ c ∈ (paginate scriptReq 2 2 [.ok ⟨[1, 2], some "a"⟩, .ok ⟨[], none⟩]).calls,
        c.offset < U32 :=
  paginate_offset_is_u32_cursor scriptReq 2 [⟨[1, 2], some "a"⟩] ⟨[], none⟩
    [.ok ⟨[1, 2], some "a"⟩, .ok ⟨[], none⟩] 2
    (by simp [ReturnsPages, scriptReq]) (by simp) rfl (by simp)

end RSpotify
